import Mathlib

/-!
Verification of the data-collection core of the Møre og Romsdal solar
analysis scripts, embedded shallowly from `met_norway_solar_2.py` and
`snow.py`.  Timestamps are modelled as natural numbers counting
microseconds (the resolution of Python `datetime`); a `timedelta(days=d)`
step is `d * dayTicks`.  A pandas `DataFrame` of hourly observations is a
`List Row`; an empty `DataFrame` is `[]`.  A raised Python exception is an
`Except.error`.
-/

namespace Met

/-- Microseconds per day: `timedelta(days=1)` at `datetime` resolution. -/
def dayTicks : Nat := 86400000000

/-- One observation row of a station `DataFrame`: its `timestamp` and an
opaque payload standing for the measured element columns (the claims under
study never inspect individual element values). -/
structure Row where
  ts : Nat
  val : Int
deriving DecidableEq, Repr

/-- The sequence of `(current_start, current_end)` windows produced by the
`while current_start < end_date` loop of `download_station_in_batches`:
`current_end = min(current_start + timedelta(days=batch_size_days), end_date)`
and then `current_start = current_end`.  `span` is the step in ticks
(`batch_size_days * dayTicks`).  The Python loop does not terminate when
the step is zero; the model returns `[]` in that case so that the
definition is total (no claim under study depends on it). -/
def chunkWindows (span : Nat) (start e : Nat) : List (Nat × Nat) :=
  if h : start < e ∧ 0 < span then
    (start, min (start + span) e) :: chunkWindows span (min (start + span) e) e
  else
    []
termination_by e - start
decreasing_by
  have h1 : start < min (start + span) e := by
    have := h.1
    have := h.2
    omega
  omega

/-- Sorting rows ascending by timestamp (`df.sort_values('timestamp')`).
pandas' default quicksort is unstable, but every use in scope sorts by a
key that is unique at that point (or feeds a later unique-key dedup-sort),
so the output is the uniquely determined reordering that an insertion sort
also realises. -/
def sort_values (df : List Row) : List Row :=
  List.insertionSort (fun a c => a.ts ≤ c.ts) df

instance : IsTotal Row (fun a c : Row => a.ts ≤ c.ts) :=
  ⟨fun a c => Nat.le_total a.ts c.ts⟩

instance : IsTrans Row (fun a c : Row => a.ts ≤ c.ts) :=
  ⟨fun _ _ _ => Nat.le_trans⟩

/-- Model of `df.drop_duplicates(subset=['timestamp'], keep='first')`:
keep the first row carrying each timestamp, in order. -/
def drop_duplicates : List Row → List Row
  | [] => []
  | r :: rs => r :: drop_duplicates (rs.filter (fun x => x.ts != r.ts))
termination_by l => l.length
decreasing_by
  simp only [List.length_cons]
  exact Nat.lt_succ_of_le (List.length_filter_le _ _)

/-- Model of `validate_data` (the statistics dictionary is reporting only
and omitted): an empty frame is returned as is, otherwise duplicates by
timestamp are dropped (first kept) and the frame is sorted by timestamp. -/
def validate_data (df : List Row) : List Row :=
  if df = [] then df
  else sort_values (drop_duplicates df)

/-- Abstract HTTP response of the Frost API to one windowed request.  The
`ok` payload carries the rows extracted from the JSON `data` array. -/
inductive Response where
  | ok (data : List Row)
  | notFound
  | tooLarge
  | other (code : Nat) (body : String)

/-- Model of `get_weather_data`: status 200 parses the `data` array
(`parse_frost_data` ends by sorting on timestamp) or returns an empty
frame when the array is empty; 404 and 412 print a notice and return an
empty frame; any other status raises `Exception`. -/
def get_weather_data : Response → Except String (List Row)
  | .ok data => if data = [] then .ok [] else .ok (sort_values data)
  | .notFound => .ok []
  | .tooLarge => .ok []
  | .other code body =>
    .error ("API Error " ++ toString code ++ ": " ++ body.take 200)

/-- Observable outcome of `get_weather_data_with_retry`: the returned
frame, the number of calls made to `get_weather_data`, and the number of
`time.sleep(RETRY_DELAY)` backoff sleeps performed. -/
structure RetryResult where
  df : List Row
  calls : Nat
  sleeps : Nat
deriving DecidableEq, Repr

/-- The outcome of one `try` body in the retry loop: `some df` when the
fetch returned a nonempty frame (the `return df` branch), `none` when it
returned an empty frame or raised — both fall through to the retry
logic. -/
def attemptRows : Except String (List Row) → Option (List Row)
  | .ok df => if df = [] then none else some df
  | .error _ => none

/-- The `for attempt in range(max_retries)` loop of
`get_weather_data_with_retry`, entered at iteration `attempt`; `fetch i`
is what `get_weather_data` does on the i-th attempt.  A sleep happens
after a failed attempt only while `attempt < max_retries - 1`; exhausting
the loop returns an empty frame. -/
def retryFrom (fetch : Nat → Except String (List Row)) (maxR : Nat)
    (attempt : Nat) : RetryResult :=
  if h : attempt < maxR then
    match attemptRows (fetch attempt) with
    | some df => ⟨df, 1, 0⟩
    | none =>
      if h2 : attempt < maxR - 1 then
        let r := retryFrom fetch maxR (attempt + 1)
        ⟨r.df, r.calls + 1, r.sleeps + 1⟩
      else
        ⟨[], 1, 0⟩
  else
    ⟨[], 0, 0⟩
termination_by maxR - attempt

/-- Model of `get_weather_data_with_retry`. -/
def get_weather_data_with_retry (fetch : Nat → Except String (List Row))
    (maxR : Nat) : RetryResult :=
  retryFrom fetch maxR 0

/-- The `while` loop of `download_station_in_batches`, accumulating
`all_batches`: per window `(current_start, current_end)` the retried fetch
yields `fetchW current_start current_end`, and only nonempty frames are
appended.  As in `chunkWindows`, the zero-span case (divergent in Python)
yields `[]`. -/
def batchLoop (fetchW : Nat → Nat → List Row) (span e cur : Nat) :
    List (List Row) :=
  if h : cur < e ∧ 0 < span then
    (if fetchW cur (min (cur + span) e) = [] then []
     else [fetchW cur (min (cur + span) e)]) ++
      batchLoop fetchW span e (min (cur + span) e)
  else
    []
termination_by e - cur
decreasing_by
  have h1 : cur < min (cur + span) e := by
    have := h.1
    have := h.2
    omega
  omega

/-- Model of `download_station_in_batches`: concatenate the nonempty
per-window frames (`pd.concat`); with no usable batch return an empty
frame.  Column renaming and the two constant station columns do not alter
the row set and are omitted. -/
def download_station_in_batches (fetchW : Nat → Nat → List Row)
    (start e span : Nat) : List Row :=
  if batchLoop fetchW span e start = [] then []
  else (batchLoop fetchW span e start).flatten

/-- Model of `download_all_stations`: `dl st` is station `st`'s
`download_station_in_batches` result, `none` when the body raised (the
`except` branch: the station is counted failed and the loop continues).
Nonempty frames are validated and collected; empty frames and exceptions
leave the station out of the result mapping. -/
def download_all_stations (dl : String → Option (List Row)) :
    List String → List (String × List Row)
  | [] => []
  | st :: rest =>
    (match dl st with
     | some df => if df = [] then [] else [(st, validate_data df)]
     | none => []) ++ download_all_stations dl rest

/-- The window-sequence specification of claim C1: windows are contiguous,
non-overlapping, cover exactly `[start, e)`, each is nonempty and spans at
most `b` days, and all but the last span exactly `b` days.  `b` is
`batch_size_days`. -/
def windowsSpec (start e b : Nat) : Prop :=
  List.Chain' (fun a c : Nat × Nat => a.2 = c.1)
    (chunkWindows (b * dayTicks) start e) ∧
  List.Pairwise (fun a c : Nat × Nat => a.2 ≤ c.1)
    (chunkWindows (b * dayTicks) start e) ∧
  (∀ x, (start ≤ x ∧ x < e) ↔
    ∃ w ∈ chunkWindows (b * dayTicks) start e, w.1 ≤ x ∧ x < w.2) ∧
  (∀ w ∈ chunkWindows (b * dayTicks) start e,
    w.1 < w.2 ∧ w.2 - w.1 ≤ b * dayTicks) ∧
  (∀ w ∈ (chunkWindows (b * dayTicks) start e).dropLast,
    w.2 - w.1 = b * dayTicks)

end Met

namespace Snow

/-- One row of the Frost frame of `snow.py` (`timestamp` plus the
solar/temperature/cloud payload, abstracted to one value). -/
structure FrostRow where
  ts : Nat
  vals : Int
deriving DecidableEq, Repr

/-- One row of the Open-Meteo snow frame after the meters→cm conversion. -/
structure SnowRow where
  ts : Nat
  snow_depth_cm : Int
deriving DecidableEq, Repr

/-- One merged output row: `snow_depth_cm` is `none` where pandas leaves
`NaN`. -/
structure MergedRow where
  ts : Nat
  vals : Int
  snow_depth_cm : Option Int
deriving DecidableEq, Repr

/-- Model of `pd.merge(df_frost, df_snow, on='timestamp', how='left')`:
each Frost row pairs with every snow row sharing its timestamp, in order,
or yields a single row with an absent (`NaN`) snow value when none
matches. -/
def merge_left (P : List FrostRow) (S : List SnowRow) : List MergedRow :=
  P.flatMap (fun p =>
    match S.filter (fun s => s.ts == p.ts) with
    | [] => [⟨p.ts, p.vals, none⟩]
    | ms => ms.map (fun s => ⟨p.ts, p.vals, some s.snow_depth_cm⟩))

/-- The per-station merge step of `run_collection` (`snow.py`): an empty
Frost frame skips the station entirely (`none`, no output file); an empty
snow frame copies the Frost frame and assigns the constant `0.0` to
`snow_depth_cm` (the adjacent log message says "filling with NaN", but the
assignment writes `0.0`); otherwise a left merge on timestamp. -/
def station_merge (P : List FrostRow) (S : List SnowRow) :
    Option (List MergedRow) :=
  if P = [] then none
  else if S = [] then some (P.map (fun p => ⟨p.ts, p.vals, some 0⟩))
  else some (merge_left P S)

/-- The record that the specification's left-join law assigns to a primary
row `p`: the timestamp-matching secondary row's value when one exists,
otherwise an absent secondary value.  Stated from the spec's words, to be
compared with `merge_left`. -/
def joinRow (S : List SnowRow) (p : FrostRow) : MergedRow :=
  match S.find? (fun s => s.ts == p.ts) with
  | some s => ⟨p.ts, p.vals, some s.snow_depth_cm⟩
  | none => ⟨p.ts, p.vals, none⟩

end Snow

namespace Met

theorem chunkWindows_nil {span start e : Nat} (h : ¬(start < e ∧ 0 < span)) :
    chunkWindows span start e = [] := by
  rw [chunkWindows]
  simp [h]

theorem chunkWindows_cons {span start e : Nat} (h : start < e ∧ 0 < span) :
    chunkWindows span start e =
      (start, min (start + span) e) ::
        chunkWindows span (min (start + span) e) e := by
  rw [chunkWindows]
  simp [h]

/-- Every produced window sits inside `[start, e)`, is nonempty, and spans
at most `span` ticks. -/
theorem chunkWindows_mem_bounds (span start e : Nat) :
    ∀ w ∈ chunkWindows span start e,
      start ≤ w.1 ∧ w.1 < w.2 ∧ w.2 ≤ e ∧ w.2 - w.1 ≤ span := by
  refine chunkWindows.induct span
    (fun start e => ∀ w ∈ chunkWindows span start e,
      start ≤ w.1 ∧ w.1 < w.2 ∧ w.2 ≤ e ∧ w.2 - w.1 ≤ span) ?_ ?_ start e
  · intro start e h ih w hw
    rw [chunkWindows_cons h] at hw
    rcases List.mem_cons.mp hw with hw | hw
    · subst hw
      refine ⟨Nat.le_refl _, ?_, ?_, ?_⟩ <;> simp <;> omega
    · have := ih w hw
      have hmin : start ≤ min (start + span) e := by omega
      omega
  · intro start e h w hw
    rw [chunkWindows_nil h] at hw
    exact absurd hw (List.not_mem_nil w)

/-- The first of the produced windows (if any) starts at `start`. -/
theorem chunkWindows_head_fst {span start e : Nat} :
    ∀ w, (chunkWindows span start e).head? = some w → w.1 = start := by
  intro w hw
  by_cases h : start < e ∧ 0 < span
  · rw [chunkWindows_cons h] at hw
    simp at hw
    rw [← hw]
  · rw [chunkWindows_nil h] at hw
    simp at hw

/-- Consecutive windows are contiguous: each ends where the next begins. -/
theorem chunkWindows_chain (span start e : Nat) :
    List.Chain' (fun a b : Nat × Nat => a.2 = b.1)
      (chunkWindows span start e) := by
  refine chunkWindows.induct span
    (fun start e => List.Chain' (fun a b : Nat × Nat => a.2 = b.1)
      (chunkWindows span start e)) ?_ ?_ start e
  · intro start e h ih
    rw [chunkWindows_cons h]
    refine List.chain'_cons'.mpr ⟨?_, ih⟩
    intro y hy
    exact (chunkWindows_head_fst y hy).symm
  · intro start e h
    rw [chunkWindows_nil h]
    exact List.chain'_nil

theorem chunkWindows_eq_nil_iff {span start e : Nat} :
    chunkWindows span start e = [] ↔ ¬(start < e ∧ 0 < span) := by
  constructor
  · intro hnil hc
    rw [chunkWindows_cons hc] at hnil
    exact List.cons_ne_nil _ _ hnil
  · exact chunkWindows_nil

/-- The last of the produced windows ends exactly at `e`. -/
theorem chunkWindows_getLast? {span start e : Nat} :
    ∀ w, (chunkWindows span start e).getLast? = some w → w.2 = e := by
  refine chunkWindows.induct span
    (fun start e => ∀ w,
      (chunkWindows span start e).getLast? = some w → w.2 = e) ?_ ?_ start e
  · intro start e h ih w hw
    rw [chunkWindows_cons h] at hw
    by_cases ht : chunkWindows span (min (start + span) e) e = []
    · rw [ht] at hw
      simp at hw
      have hm : ¬(min (start + span) e < e ∧ 0 < span) :=
        chunkWindows_eq_nil_iff.mp ht
      have : min (start + span) e = e := by
        rcases h with ⟨h1, h2⟩
        omega
      rw [← hw]
      exact this
    · rcases List.exists_cons_of_ne_nil ht with ⟨b, t, hbt⟩
      rw [hbt] at hw
      rw [List.getLast?_cons_cons] at hw
      exact ih w (by rw [hbt]; exact hw)
  · intro start e h w hw
    rw [chunkWindows_nil h] at hw
    simp at hw

/-- Every instant of `[start, e)` lies in one of the produced windows. -/
theorem chunkWindows_cover {span start e : Nat} (hspan : 0 < span) :
    ∀ x, start ≤ x → x < e →
      ∃ w ∈ chunkWindows span start e, w.1 ≤ x ∧ x < w.2 := by
  refine chunkWindows.induct span
    (fun start e => ∀ x, start ≤ x → x < e →
      ∃ w ∈ chunkWindows span start e, w.1 ≤ x ∧ x < w.2) ?_ ?_ start e
  · intro start e h ih x hx1 hx2
    rw [chunkWindows_cons h]
    by_cases hx : x < min (start + span) e
    · exact ⟨(start, min (start + span) e), List.mem_cons_self _ _, hx1, hx⟩
    · have hge : min (start + span) e ≤ x := Nat.le_of_not_lt hx
      rcases ih x hge hx2 with ⟨w, hw, hwx⟩
      exact ⟨w, List.mem_cons_of_mem _ hw, hwx⟩
  · intro start e h x hx1 hx2
    exact absurd ⟨Nat.lt_of_le_of_lt hx1 hx2, hspan⟩ h

/-- Windows are pairwise non-overlapping: each ends before a later one
begins. -/
theorem chunkWindows_pairwise (span start e : Nat) :
    List.Pairwise (fun a b : Nat × Nat => a.2 ≤ b.1)
      (chunkWindows span start e) := by
  refine chunkWindows.induct span
    (fun start e => List.Pairwise (fun a b : Nat × Nat => a.2 ≤ b.1)
      (chunkWindows span start e)) ?_ ?_ start e
  · intro start e h ih
    rw [chunkWindows_cons h]
    refine List.pairwise_cons.mpr ⟨?_, ih⟩
    intro w hw
    exact (chunkWindows_mem_bounds span _ e w hw).1
  · intro start e h
    rw [chunkWindows_nil h]
    exact List.Pairwise.nil

/-- Every window except possibly the last spans exactly `span` ticks. -/
theorem chunkWindows_dropLast_span {span start e : Nat} :
    ∀ w ∈ (chunkWindows span start e).dropLast, w.2 - w.1 = span := by
  refine chunkWindows.induct span
    (fun start e =>
      ∀ w ∈ (chunkWindows span start e).dropLast, w.2 - w.1 = span)
    ?_ ?_ start e
  · intro start e h ih w hw
    rw [chunkWindows_cons h] at hw
    by_cases ht : chunkWindows span (min (start + span) e) e = []
    · rw [ht] at hw
      simp at hw
    · rcases List.exists_cons_of_ne_nil ht with ⟨b, t, hbt⟩
      rw [hbt, List.dropLast_cons₂, List.mem_cons] at hw
      rcases hw with hw | hw
      · subst hw
        have hm : min (start + span) e < e ∧ 0 < span := by
          by_contra hc
          exact ht (chunkWindows_nil hc)
        have : min (start + span) e = start + span := by omega
        simp [this]
      · exact ih w (by rw [hbt]; exact hw)
  · intro start e h w hw
    rw [chunkWindows_nil h] at hw
    simp at hw

/-- Claim C1: for every `start < end` and every `batch_size_days ≥ 1`, the
window sequence of the batch loop of `download_station_in_batches` is
contiguous, non-overlapping, covers exactly `[start, end)`, and every
window spans at most `batch_size_days` days, all but the final one exactly
that many. -/
theorem claim_C1_batch_windows (start e b : Nat) (hse : start < e)
    (hb : 1 ≤ b) : windowsSpec start e b := by
  have hspan : 0 < b * dayTicks := by
    have : 0 < dayTicks := by decide
    exact Nat.mul_pos hb this
  refine ⟨chunkWindows_chain _ _ _, chunkWindows_pairwise _ _ _, ?_, ?_, ?_⟩
  · intro x
    constructor
    · intro hx
      exact chunkWindows_cover hspan x hx.1 hx.2
    · intro hx
      rcases hx with ⟨w, hw, hxw⟩
      have hbd := chunkWindows_mem_bounds _ _ _ w hw
      exact ⟨Nat.le_trans hbd.1 hxw.1, Nat.lt_of_lt_of_le hxw.2 hbd.2.2.1⟩
  · intro w hw
    have hbd := chunkWindows_mem_bounds _ _ _ w hw
    exact ⟨hbd.2.1, hbd.2.2.2⟩
  · intro w hw
    exact chunkWindows_dropLast_span w hw

/-- Concrete instantiation of C1: a two-day range with one-day batches. -/
theorem claim_C1_batch_windows_witness :
    (0 : Nat) < 2 * dayTicks ∧ 1 ≤ 1 ∧ windowsSpec 0 (2 * dayTicks) 1 :=
  ⟨by decide, by decide, claim_C1_batch_windows 0 (2 * dayTicks) 1 (by decide) (by decide)⟩

theorem retryFrom_not_lt {fetch : Nat → Except String (List Row)}
    {maxR attempt : Nat} (h : ¬attempt < maxR) :
    retryFrom fetch maxR attempt = ⟨[], 0, 0⟩ := by
  rw [retryFrom]
  simp [h]

theorem retryFrom_success {fetch : Nat → Except String (List Row)}
    {maxR attempt : Nat} {df : List Row} (h : attempt < maxR)
    (hs : attemptRows (fetch attempt) = some df) :
    retryFrom fetch maxR attempt = ⟨df, 1, 0⟩ := by
  rw [retryFrom]
  simp [h, hs]

theorem retryFrom_fail_step {fetch : Nat → Except String (List Row)}
    {maxR attempt : Nat} (h : attempt < maxR)
    (hn : attemptRows (fetch attempt) = none) (h2 : attempt < maxR - 1) :
    retryFrom fetch maxR attempt =
      ⟨(retryFrom fetch maxR (attempt + 1)).df,
       (retryFrom fetch maxR (attempt + 1)).calls + 1,
       (retryFrom fetch maxR (attempt + 1)).sleeps + 1⟩ := by
  rw [retryFrom]
  simp [h, hn, h2]

theorem retryFrom_fail_last {fetch : Nat → Except String (List Row)}
    {maxR attempt : Nat} (h : attempt < maxR)
    (hn : attemptRows (fetch attempt) = none) (h2 : ¬attempt < maxR - 1) :
    retryFrom fetch maxR attempt = ⟨[], 1, 0⟩ := by
  rw [retryFrom]
  simp [h, hn, h2]

/-- When every attempt falls through (raises or yields an empty frame),
the retry loop performs one fetch per remaining iteration, sleeps between
consecutive iterations, and returns an empty frame. -/
theorem retryFrom_all_fail (fetch : Nat → Except String (List Row))
    (maxR : Nat) (hf : ∀ i, attemptRows (fetch i) = none) :
    ∀ attempt, retryFrom fetch maxR attempt =
      ⟨[], maxR - attempt, maxR - attempt - 1⟩ := by
  refine retryFrom.induct fetch maxR
    (fun attempt => retryFrom fetch maxR attempt =
      ⟨[], maxR - attempt, maxR - attempt - 1⟩) ?_ ?_ ?_ ?_
  · intro x hx df hdf
    rw [hf x] at hdf
    cases hdf
  · intro x hx hn h2 ih
    rw [retryFrom_fail_step hx hn h2, ih]
    simp only [RetryResult.mk.injEq]
    refine ⟨trivial, ?_, ?_⟩ <;> omega
  · intro x hx hn h2
    rw [retryFrom_fail_last hx hn h2]
    simp only [RetryResult.mk.injEq]
    refine ⟨trivial, ?_, ?_⟩ <;> omega
  · intro x hx
    rw [retryFrom_not_lt hx]
    simp only [RetryResult.mk.injEq]
    refine ⟨trivial, ?_, ?_⟩ <;> omega

/-- The frame returned by the retry loop is empty, or was produced intact
by a successful attempt inside the loop's bounds. -/
theorem retryFrom_df_empty_or_success (fetch : Nat → Except String (List Row))
    (maxR : Nat) :
    ∀ attempt, (retryFrom fetch maxR attempt).df = [] ∨
      ∃ i, attempt ≤ i ∧ i < maxR ∧
        attemptRows (fetch i) = some (retryFrom fetch maxR attempt).df := by
  refine retryFrom.induct fetch maxR
    (fun attempt => (retryFrom fetch maxR attempt).df = [] ∨
      ∃ i, attempt ≤ i ∧ i < maxR ∧
        attemptRows (fetch i) = some (retryFrom fetch maxR attempt).df) ?_ ?_ ?_ ?_
  · intro x hx df hdf
    rw [retryFrom_success hx hdf]
    exact Or.inr ⟨x, Nat.le_refl x, hx, hdf⟩
  · intro x hx hn h2 ih
    rw [retryFrom_fail_step hx hn h2]
    rcases ih with ih | ⟨i, hi1, hi2, hi3⟩
    · exact Or.inl ih
    · exact Or.inr ⟨i, Nat.le_of_succ_le hi1, hi2, hi3⟩
  · intro x hx hn h2
    rw [retryFrom_fail_last hx hn h2]
    exact Or.inl rfl
  · intro x hx
    rw [retryFrom_not_lt hx]
    exact Or.inl rfl

/-- Claim C2: with `max_retries ≥ 1` and a source that raises a retryable
error on every attempt, `get_weather_data_with_retry` calls
`get_weather_data` exactly `max_retries` times, sleeps the backoff delay
between consecutive attempts (`max_retries - 1` sleeps), and then returns
the exhausted-retries failure value to its caller (the code logs "Failed
after N attempts" and encodes the fatal outcome as an empty frame). -/
theorem claim_C2_retry_exhausts (fetch : Nat → Except String (List Row))
    (maxR : Nat) (hmax : 1 ≤ maxR)
    (hfail : ∀ i, ∃ m, fetch i = Except.error m) :
    get_weather_data_with_retry fetch maxR = ⟨[], maxR, maxR - 1⟩ := by
  have hf : ∀ i, attemptRows (fetch i) = none := by
    intro i
    rcases hfail i with ⟨m, hm⟩
    rw [hm]
    rfl
  have h := retryFrom_all_fail fetch maxR hf 0
  simpa [get_weather_data_with_retry] using h

/-- Concrete instantiation of C2: three attempts against an
always-raising source. -/
theorem claim_C2_retry_exhausts_witness :
    1 ≤ 3 ∧ get_weather_data_with_retry (fun _ => Except.error "boom") 3 =
      ⟨[], 3, 2⟩ :=
  ⟨by decide,
   claim_C2_retry_exhausts (fun _ => Except.error "boom") 3 (by decide)
     (fun _ => ⟨"boom", rfl⟩)⟩

/-- Claim C3 is false on the code: with a source that always answers the
"window too large" status 412, `get_weather_data_with_retry 3` calls the
underlying fetch 3 times, not exactly once — `get_weather_data` maps 412
to an empty frame, which the retry loop treats as retryable. -/
theorem claim_C3_counterexample :
    (get_weather_data_with_retry
        (fun _ => get_weather_data Response.tooLarge) 3).calls = 3 ∧
    ¬(get_weather_data_with_retry
        (fun _ => get_weather_data Response.tooLarge) 3).calls = 1 := by
  constructor <;>
    simp [get_weather_data_with_retry, retryFrom, get_weather_data, attemptRows]

/-- Claim C3 (amended): a 412 response is not classified as fatal:
`get_weather_data` turns it into an empty frame, and the retry wrapper
then behaves as for an empty window — it performs all `max_retries`
attempts, sleeping between them, and returns an empty frame. -/
theorem claim_C3_amended_412_retried (maxR : Nat) (hmax : 1 ≤ maxR) :
    get_weather_data Response.tooLarge = Except.ok [] ∧
    get_weather_data_with_retry (fun _ => get_weather_data Response.tooLarge)
      maxR = ⟨[], maxR, maxR - 1⟩ := by
  refine ⟨rfl, ?_⟩
  have hf : ∀ i, attemptRows
      ((fun _ : Nat => get_weather_data Response.tooLarge) i) = none :=
    fun _ => rfl
  have h := retryFrom_all_fail
    (fun _ => get_weather_data Response.tooLarge) maxR hf 0
  simpa [get_weather_data_with_retry] using h

/-- Concrete instantiation of the amended C3 at `max_retries = 2`. -/
theorem claim_C3_amended_412_retried_witness :
    1 ≤ 2 ∧
    (get_weather_data Response.tooLarge = Except.ok [] ∧
     get_weather_data_with_retry (fun _ => get_weather_data Response.tooLarge)
       2 = ⟨[], 2, 1⟩) :=
  ⟨by decide, claim_C3_amended_412_retried 2 (by decide)⟩

/-- Claim C4 is false on the code: with a source that always succeeds with
zero data points, `get_weather_data_with_retry 3` performs 3 attempts and
2 backoff sleeps — the empty outcome is retried like a failure, not
returned immediately. -/
theorem claim_C4_counterexample :
    (get_weather_data_with_retry
        (fun _ => get_weather_data (Response.ok [])) 3).calls = 3 ∧
    (get_weather_data_with_retry
        (fun _ => get_weather_data (Response.ok [])) 3).sleeps = 2 ∧
    ¬((get_weather_data_with_retry
        (fun _ => get_weather_data (Response.ok [])) 3).calls = 1 ∧
      (get_weather_data_with_retry
        (fun _ => get_weather_data (Response.ok [])) 3).sleeps = 0) := by
  refine ⟨?_, ?_, ?_⟩ <;>
    simp [get_weather_data_with_retry, retryFrom, get_weather_data, attemptRows]

/-- Claim C4 (amended): a fetch that succeeds with zero data points is not
returned immediately — the retry loop treats the empty frame exactly like
a failed attempt, sleeping and retrying until the attempts are exhausted,
and finally returns an empty frame (which is also not an error value). -/
theorem claim_C4_amended_empty_retried (fetch : Nat → Except String (List Row))
    (maxR : Nat) (hmax : 1 ≤ maxR)
    (hempty : ∀ i, fetch i = Except.ok ([] : List Row)) :
    get_weather_data_with_retry fetch maxR = ⟨[], maxR, maxR - 1⟩ := by
  have hf : ∀ i, attemptRows (fetch i) = none := by
    intro i
    rw [hempty i]
    rfl
  have h := retryFrom_all_fail fetch maxR hf 0
  simpa [get_weather_data_with_retry] using h

/-- Concrete instantiation of the amended C4 at `max_retries = 3`. -/
theorem claim_C4_amended_empty_retried_witness :
    1 ≤ 3 ∧ get_weather_data_with_retry (fun _ => Except.ok ([] : List Row))
      3 = ⟨[], 3, 2⟩ :=
  ⟨by decide,
   claim_C4_amended_empty_retried (fun _ => Except.ok []) 3 (by decide)
     (fun _ => rfl)⟩

/-- Claim C10: `get_weather_data_with_retry` is total — modelled with a
plain (exception-free) result type because the loop body catches every
exception of `get_weather_data` — and every failure mode collapses to an
empty frame: (1) HTTP 404 and 412 already yield empty frames at the
source, while other statuses raise; (2) for every response behaviour the
returned frame is empty unless some in-bounds attempt produced it as a
nonempty success; (3) a caller cannot distinguish exhausted retries on
errors, on 404s, on 412s, or on genuinely empty windows — all four
sources produce identical results. -/
theorem claim_C10_failures_collapse_to_empty :
    (get_weather_data Response.notFound = Except.ok [] ∧
     get_weather_data Response.tooLarge = Except.ok [] ∧
     ∀ c b, ∃ m, get_weather_data (Response.other c b) = Except.error m) ∧
    (∀ (resp : Nat → Response) (maxR : Nat),
      (get_weather_data_with_retry (fun i => get_weather_data (resp i)) maxR).df
          = [] ∨
      ∃ i, i < maxR ∧ attemptRows (get_weather_data (resp i)) =
        some (get_weather_data_with_retry
          (fun i => get_weather_data (resp i)) maxR).df) ∧
    (∀ maxR : Nat,
      get_weather_data_with_retry
          (fun _ => get_weather_data Response.notFound) maxR =
        ⟨[], maxR, maxR - 1⟩ ∧
      get_weather_data_with_retry
          (fun _ => get_weather_data Response.tooLarge) maxR =
        ⟨[], maxR, maxR - 1⟩ ∧
      get_weather_data_with_retry
          (fun _ => get_weather_data (Response.ok [])) maxR =
        ⟨[], maxR, maxR - 1⟩ ∧
      get_weather_data_with_retry
          (fun _ => get_weather_data (Response.other 500 "err")) maxR =
        ⟨[], maxR, maxR - 1⟩) := by
  refine ⟨⟨rfl, rfl, fun c b => ⟨_, rfl⟩⟩, ?_, ?_⟩
  · intro resp maxR
    have h := retryFrom_df_empty_or_success
      (fun i => get_weather_data (resp i)) maxR 0
    rcases h with h | ⟨i, _, hi2, hi3⟩
    · exact Or.inl h
    · exact Or.inr ⟨i, hi2, hi3⟩
  · intro maxR
    exact ⟨retryFrom_all_fail (fun _ => get_weather_data Response.notFound)
        maxR (fun _ => rfl) 0,
      retryFrom_all_fail (fun _ => get_weather_data Response.tooLarge)
        maxR (fun _ => rfl) 0,
      retryFrom_all_fail (fun _ => get_weather_data (Response.ok []))
        maxR (fun _ => rfl) 0,
      retryFrom_all_fail (fun _ => get_weather_data (Response.other 500 "err"))
        maxR (fun _ => rfl) 0⟩

theorem drop_duplicates_nil : drop_duplicates [] = [] := by
  rw [drop_duplicates]

theorem drop_duplicates_cons (r : Row) (rs : List Row) :
    drop_duplicates (r :: rs) =
      r :: drop_duplicates (rs.filter (fun x => x.ts != r.ts)) := by
  rw [drop_duplicates]

theorem mem_of_mem_drop_duplicates :
    ∀ {l : List Row} {r : Row}, r ∈ drop_duplicates l → r ∈ l := by
  intro l
  induction l using drop_duplicates.induct with
  | case1 =>
    intro r hr
    rw [drop_duplicates_nil] at hr
    simp at hr
  | case2 a rs ih =>
    intro r hr
    rw [drop_duplicates_cons] at hr
    rcases List.mem_cons.mp hr with hr | hr
    · exact hr ▸ List.mem_cons_self _ _
    · exact List.mem_cons_of_mem _ (List.mem_of_mem_filter (ih hr))

/-- Filtering away only elements that a search predicate rejects does not
change the result of `find?`. -/
theorem find?_filter_of_imp (p q : Row → Bool)
    (h : ∀ x, q x = true → p x = true) :
    ∀ l : List Row, (l.filter p).find? q = l.find? q := by
  intro l
  induction l with
  | nil => rfl
  | cons a t iht =>
    by_cases hq : q a = true
    · rw [List.filter_cons, if_pos (h a hq)]
      rw [List.find?_cons_of_pos _ hq, List.find?_cons_of_pos _ hq]
    · by_cases hp : p a = true
      · rw [List.filter_cons, if_pos hp]
        rw [List.find?_cons_of_neg _ (by simpa using hq),
          List.find?_cons_of_neg _ (by simpa using hq)]
        exact iht
      · rw [List.filter_cons, if_neg (by simpa using hp)]
        rw [List.find?_cons_of_neg _ (by simpa using hq)]
        exact iht

/-- Every row kept by the dedup pass is the first row of the input that
carries its timestamp. -/
theorem drop_duplicates_find? :
    ∀ (l : List Row), ∀ r ∈ drop_duplicates l,
      l.find? (fun x => x.ts == r.ts) = some r := by
  intro l
  induction l using drop_duplicates.induct with
  | case1 =>
    intro r hr
    rw [drop_duplicates_nil] at hr
    simp at hr
  | case2 a rs ih =>
    intro r hr
    rw [drop_duplicates_cons] at hr
    rcases List.mem_cons.mp hr with hr | hr
    · subst hr
      exact List.find?_cons_of_pos _ (by simp)
    · have hrf : r ∈ rs.filter (fun x => x.ts != a.ts) :=
        mem_of_mem_drop_duplicates hr
      have hne : r.ts ≠ a.ts := by
        have := List.of_mem_filter hrf
        simpa using this
      rw [List.find?_cons_of_neg _ (by simpa using fun hc => hne hc.symm)]
      rw [← find?_filter_of_imp (fun x => x.ts != a.ts) (fun x => x.ts == r.ts)]
      · exact ih r hr
      · intro x hx
        have : x.ts = r.ts := by simpa using hx
        simpa using this ▸ hne

/-- The dedup pass leaves no two rows with the same timestamp. -/
theorem drop_duplicates_ts_nodup :
    ∀ l : List Row, ((drop_duplicates l).map Row.ts).Nodup := by
  intro l
  induction l using drop_duplicates.induct with
  | case1 =>
    rw [drop_duplicates_nil]
    exact List.nodup_nil
  | case2 a rs ih =>
    rw [drop_duplicates_cons, List.map_cons]
    refine List.nodup_cons.mpr ⟨?_, ih⟩
    intro hmem
    rcases List.mem_map.mp hmem with ⟨r, hr, hts⟩
    have hrf := mem_of_mem_drop_duplicates hr
    have := List.of_mem_filter hrf
    simp at this
    exact this (hts.symm ▸ rfl)

/-- Every input timestamp survives the dedup pass. -/
theorem drop_duplicates_cover :
    ∀ l : List Row, ∀ r ∈ l, ∃ r' ∈ drop_duplicates l, r'.ts = r.ts := by
  intro l
  induction l using drop_duplicates.induct with
  | case1 =>
    intro r hr
    simp at hr
  | case2 a rs ih =>
    intro r hr
    rw [drop_duplicates_cons]
    rcases List.mem_cons.mp hr with hr | hr
    · exact ⟨a, List.mem_cons_self _ _, by rw [hr]⟩
    · by_cases hts : r.ts = a.ts
      · exact ⟨a, List.mem_cons_self _ _, hts.symm⟩
      · have hrf : r ∈ rs.filter (fun x => x.ts != a.ts) :=
          List.mem_filter.mpr ⟨hr, by simpa using hts⟩
        rcases ih r hrf with ⟨r', hr', hts'⟩
        exact ⟨r', List.mem_cons_of_mem _ hr', hts'⟩

/-- Claim C7: after assembly, `validate_data` yields a table strictly
ascending in timestamp (hence with unique timestamps); every kept row is
the first occurrence of its timestamp in concatenation order; and every
input timestamp is still represented. -/
theorem claim_C7_validate_data (df : List Row) :
    List.Pairwise (fun a c : Row => a.ts < c.ts) (validate_data df) ∧
    (∀ r ∈ validate_data df, df.find? (fun x => x.ts == r.ts) = some r) ∧
    (∀ r ∈ df, ∃ r' ∈ validate_data df, r'.ts = r.ts) := by
  by_cases hdf : df = []
  · subst hdf
    refine ⟨?_, ?_, ?_⟩ <;> simp [validate_data]
  · have hval : validate_data df = sort_values (drop_duplicates df) := by
      rw [validate_data, if_neg hdf]
    have hperm : List.Perm (sort_values (drop_duplicates df))
        (drop_duplicates df) :=
      List.perm_insertionSort _ _
    refine ⟨?_, ?_, ?_⟩
    · rw [hval]
      have hsorted : List.Pairwise (fun a c : Row => a.ts ≤ c.ts)
          (sort_values (drop_duplicates df)) :=
        List.sorted_insertionSort _ _
      have hnodup : ((sort_values (drop_duplicates df)).map Row.ts).Nodup :=
        (List.Perm.nodup_iff (hperm.map Row.ts)).mpr
          (drop_duplicates_ts_nodup df)
      have hne : List.Pairwise (fun a c : Row => a.ts ≠ c.ts)
          (sort_values (drop_duplicates df)) :=
        List.pairwise_map.mp hnodup
      exact (hsorted.and hne).imp (fun h => Nat.lt_of_le_of_ne h.1 h.2)
    · intro r hr
      rw [hval] at hr
      exact drop_duplicates_find? df r (hperm.mem_iff.mp hr)
    · intro r hr
      rcases drop_duplicates_cover df r hr with ⟨r', hr', hts⟩
      rw [hval]
      exact ⟨r', hperm.mem_iff.mpr hr', hts⟩

/-- Concrete instantiation of C7: a frame with a duplicated timestamp 5;
the first occurrence `⟨5, 1⟩` is kept and found first. -/
theorem claim_C7_validate_data_witness :
    (⟨5, 1⟩ : Row) ∈ validate_data [⟨5, 1⟩, ⟨3, 2⟩, ⟨5, 9⟩] ∧
    ([⟨5, 1⟩, ⟨3, 2⟩, ⟨5, 9⟩] : List Row).find?
      (fun x => x.ts == (⟨5, 1⟩ : Row).ts) = some ⟨5, 1⟩ := by
  have hmem : (⟨5, 1⟩ : Row) ∈ validate_data [⟨5, 1⟩, ⟨3, 2⟩, ⟨5, 9⟩] := by
    simp [validate_data, drop_duplicates, sort_values, List.insertionSort,
      List.orderedInsert]
  exact ⟨hmem, (claim_C7_validate_data [⟨5, 1⟩, ⟨3, 2⟩, ⟨5, 9⟩]).2.1 _ hmem⟩

theorem batchLoop_nil {fetchW : Nat → Nat → List Row} {span e cur : Nat}
    (h : ¬(cur < e ∧ 0 < span)) : batchLoop fetchW span e cur = [] := by
  rw [batchLoop]
  simp [h]

theorem batchLoop_cons {fetchW : Nat → Nat → List Row} {span e cur : Nat}
    (h : cur < e ∧ 0 < span) :
    batchLoop fetchW span e cur =
      (if fetchW cur (min (cur + span) e) = [] then []
       else [fetchW cur (min (cur + span) e)]) ++
        batchLoop fetchW span e (min (cur + span) e) := by
  rw [batchLoop]
  simp [h]

/-- Concatenating the `all_batches` accumulator gives exactly the
concatenation of every window's fetched rows: skipping the empty frames
changes nothing. -/
theorem batchLoop_flatten (fetchW : Nat → Nat → List Row) (span cur e : Nat) :
    (batchLoop fetchW span e cur).flatten =
      ((chunkWindows span cur e).map (fun w => fetchW w.1 w.2)).flatten := by
  refine chunkWindows.induct span
    (fun cur e => (batchLoop fetchW span e cur).flatten =
      ((chunkWindows span cur e).map (fun w => fetchW w.1 w.2)).flatten)
    ?_ ?_ cur e
  · intro cur e h ih
    rw [batchLoop_cons h, chunkWindows_cons h]
    rw [List.flatten_append, List.map_cons, List.flatten_cons, ih]
    by_cases hf : fetchW cur (min (cur + span) e) = []
    · rw [if_pos hf, hf]
      simp
    · rw [if_neg hf]
      simp
  · intro cur e h
    rw [batchLoop_nil h, chunkWindows_nil h]
    simp

/-- `download_station_in_batches` returns exactly the concatenation of the
per-window fetch results, in window order. -/
theorem download_station_eq_flatten (fetchW : Nat → Nat → List Row)
    (start e span : Nat) :
    download_station_in_batches fetchW start e span =
      ((chunkWindows span start e).map (fun w => fetchW w.1 w.2)).flatten := by
  rw [download_station_in_batches]
  by_cases hb : batchLoop fetchW span e start = []
  · rw [if_pos hb, ← batchLoop_flatten, hb]
    rfl
  · rw [if_neg hb, batchLoop_flatten]

/-- Stations whose download succeeds with data always appear in the
result, whatever happens to other stations. -/
theorem download_all_stations_mem (dl : String → Option (List Row)) :
    ∀ (stations : List String), ∀ t ∈ stations, ∀ d, dl t = some d → d ≠ [] →
      (t, validate_data d) ∈ download_all_stations dl stations := by
  intro stations
  induction stations with
  | nil =>
    intro t ht
    simp at ht
  | cons st rest ih =>
    intro t ht d hd hne
    rw [download_all_stations]
    rcases List.mem_cons.mp ht with ht | ht
    · subst ht
      rw [hd]
      simp only [if_neg hne]
      exact List.mem_append_left _ (List.mem_singleton.mpr rfl)
    · exact List.mem_append_right _ (ih t ht d hd hne)

/-- A station whose download raised or came back empty contributes nothing
to the result. -/
theorem download_all_stations_not_mem (dl : String → Option (List Row))
    (s0 : String) (hs0 : dl s0 = none ∨ dl s0 = some []) :
    ∀ (stations : List String) (x : List Row),
      (s0, x) ∉ download_all_stations dl stations := by
  intro stations
  induction stations with
  | nil =>
    intro x hx
    rw [download_all_stations] at hx
    simp at hx
  | cons st rest ih =>
    intro x hx
    rw [download_all_stations] at hx
    rcases List.mem_append.mp hx with hx | hx
    · by_cases hst : dl st = none
      · rw [hst] at hx
        simp at hx
      · rcases Option.ne_none_iff_exists'.mp hst with ⟨df, hdf⟩
        rw [hdf] at hx
        by_cases hne : df = []
        · simp [hne] at hx
        · simp [hne] at hx
          rcases hx with ⟨hx1, -⟩
          rw [← hx1] at hdf
          rcases hs0 with hs0 | hs0
          · rw [hs0] at hdf
            cases hdf
          · rw [hs0] at hdf
            exact hne (Option.some.inj hdf).symm
    · exact ih x hx

/-- Claim C8: failures are contained at their own level.  A window `w0`
whose (already retried) fetch came back empty does not abort the station:
the download is still the concatenation of all windows' rows, every
window's rows embed in the result, and no result row stems from `w0`.  A
station `s0` that raised or yielded nothing does not abort the run: every
other station with nonempty data appears validated in the result, and `s0`
is absent from it. -/
theorem claim_C8_failure_containment
    (fetchW : Nat → Nat → List Row) (start e span : Nat) (w0 : Nat × Nat)
    (hw0 : w0 ∈ chunkWindows span start e) (hfail : fetchW w0.1 w0.2 = [])
    (stations : List String) (dl : String → Option (List Row)) (s0 : String)
    (hs0 : dl s0 = none ∨ dl s0 = some []) :
    (download_station_in_batches fetchW start e span =
      ((chunkWindows span start e).map (fun w => fetchW w.1 w.2)).flatten) ∧
    (∀ w ∈ chunkWindows span start e,
      (fetchW w.1 w.2).Sublist (download_station_in_batches fetchW start e span)) ∧
    (∀ r ∈ download_station_in_batches fetchW start e span,
      ∃ w ∈ chunkWindows span start e, w ≠ w0 ∧ r ∈ fetchW w.1 w.2) ∧
    (∀ t ∈ stations, ∀ d, dl t = some d → d ≠ [] →
      (t, validate_data d) ∈ download_all_stations dl stations) ∧
    (∀ x, (s0, x) ∉ download_all_stations dl stations) := by
  refine ⟨download_station_eq_flatten fetchW start e span, ?_, ?_, ?_, ?_⟩
  · intro w hw
    rw [download_station_eq_flatten]
    exact List.sublist_flatten_of_mem
      (List.mem_map.mpr ⟨w, hw, rfl⟩)
  · intro r hr
    rw [download_station_eq_flatten] at hr
    rcases List.mem_flatten.mp hr with ⟨batch, hbatch, hrb⟩
    rcases List.mem_map.mp hbatch with ⟨w, hw, hwb⟩
    refine ⟨w, hw, ?_, hwb ▸ hrb⟩
    intro hww
    rw [hww, hfail] at hwb
    rw [← hwb] at hrb
    simp at hrb
  · exact download_all_stations_mem dl stations
  · exact fun x => download_all_stations_not_mem dl s0 hs0 stations x

/-- Concrete instantiation of C8: a two-window download whose first window
fails, and a two-station run whose first station raises — the second
window and the second station still deliver. -/
theorem claim_C8_failure_containment_witness :
    ((0, 1) ∈ chunkWindows 1 0 2) ∧
    ((fun a _ : Nat => if a = 0 then ([] : List Row) else [⟨a, 0⟩]) 0 1 = []) ∧
    ((fun st : String => if st = "A" then none else some [(⟨1, 2⟩ : Row)]) "A"
      = none ∨
     (fun st : String => if st = "A" then none else some [(⟨1, 2⟩ : Row)]) "A"
      = some []) ∧
    (("B", validate_data [⟨1, 2⟩]) ∈ download_all_stations
      (fun st => if st = "A" then none else some [(⟨1, 2⟩ : Row)])
      ["A", "B"]) ∧
    (∀ x, ("A", x) ∉ download_all_stations
      (fun st => if st = "A" then none else some [(⟨1, 2⟩ : Row)])
      ["A", "B"]) := by
  have h := claim_C8_failure_containment
    (fun a _ : Nat => if a = 0 then ([] : List Row) else [⟨a, 0⟩])
    0 2 1 (0, 1) (by simp [chunkWindows]) (by simp)
    ["A", "B"]
    (fun st : String => if st = "A" then none else some [(⟨1, 2⟩ : Row)])
    "A" (Or.inl (by simp))
  exact ⟨by simp [chunkWindows], by simp, Or.inl (by simp),
    h.2.2.2.1 "B" (by simp) [⟨1, 2⟩] (by simp) (by simp), h.2.2.2.2⟩

/-- Claim C9 is false on the code: `download_station_in_batches` performs
no range validation at all.  Called with `start ≥ end` (here start = day
5, end = day 3) it does not fail with any error: the `while` loop runs
zero iterations — the window list is empty, so no fetch happens — and an
empty frame is returned normally. -/
theorem claim_C9_counterexample :
    chunkWindows (1 * dayTicks) (5 * dayTicks) (3 * dayTicks) = [] ∧
    download_station_in_batches (fun a _ => [⟨a, 0⟩])
      (5 * dayTicks) (3 * dayTicks) (1 * dayTicks) = [] := by
  constructor
  · exact chunkWindows_nil (by decide)
  · rw [download_station_in_batches, batchLoop_nil (by decide)]
    simp

/-- Claim C9 (amended): calling the batch loop with `start ≥ end` does not
raise `InvalidRangeError` (no such check exists in the code): the loop
body never runs, no window is produced, no fetch is performed, and an
empty frame is returned.  (With `batch_size_days < 1` the code likewise
raises nothing — the loop simply never advances.) -/
theorem claim_C9_amended_no_validation (fetchW : Nat → Nat → List Row)
    (start e span : Nat) (h : e ≤ start) :
    chunkWindows span start e = [] ∧
    download_station_in_batches fetchW start e span = [] := by
  have hc : ¬(start < e ∧ 0 < span) := by omega
  refine ⟨chunkWindows_nil hc, ?_⟩
  rw [download_station_in_batches, batchLoop_nil hc]
  simp

/-- Concrete instantiation of the amended C9 at `start` = day 5, `end` =
day 3. -/
theorem claim_C9_amended_no_validation_witness :
    3 * dayTicks ≤ 5 * dayTicks ∧
    (chunkWindows (1 * dayTicks) (5 * dayTicks) (3 * dayTicks) = [] ∧
     download_station_in_batches (fun a _ => [⟨a, 0⟩])
       (5 * dayTicks) (3 * dayTicks) (1 * dayTicks) = []) :=
  ⟨by decide,
   claim_C9_amended_no_validation (fun a _ => [⟨a, 0⟩])
     (5 * dayTicks) (3 * dayTicks) (1 * dayTicks) (by decide)⟩

end Met

namespace Snow

/-- With unique secondary timestamps, filtering for a timestamp yields
nothing when `find?` finds nothing, and exactly the found row otherwise. -/
theorem filter_ts_of_nodup :
    ∀ (S : List SnowRow), (S.map SnowRow.ts).Nodup → ∀ t : Nat,
      (S.find? (fun s => s.ts == t) = none →
        S.filter (fun s => s.ts == t) = []) ∧
      (∀ s0, S.find? (fun s => s.ts == t) = some s0 →
        S.filter (fun s => s.ts == t) = [s0]) := by
  intro S
  induction S with
  | nil =>
    intro _ t
    exact ⟨fun _ => rfl, fun s0 h => by cases h⟩
  | cons a rest ih =>
    intro hnd t
    have hndr : (rest.map SnowRow.ts).Nodup := (List.nodup_cons.mp hnd).2
    have hna : a.ts ∉ rest.map SnowRow.ts := (List.nodup_cons.mp hnd).1
    by_cases ha : a.ts = t
    · constructor
      · intro hfind
        rw [List.find?_cons_of_pos _ (by simpa using ha)] at hfind
        cases hfind
      · intro s0 hfind
        rw [List.find?_cons_of_pos _ (by simpa using ha)] at hfind
        have hs0 : a = s0 := Option.some.inj hfind
        rw [List.filter_cons, if_pos (by simpa using ha)]
        have hrest : rest.filter (fun s => s.ts == t) = [] := by
          rw [List.filter_eq_nil_iff]
          intro x hx hxt
          exact hna (List.mem_map.mpr ⟨x, hx, by simpa [ha] using hxt⟩)
        rw [hrest, hs0]
    · constructor
      · intro hfind
        rw [List.find?_cons_of_neg _ (by simpa using ha)] at hfind
        rw [List.filter_cons, if_neg (by simpa using ha)]
        exact (ih hndr t).1 hfind
      · intro s0 hfind
        rw [List.find?_cons_of_neg _ (by simpa using ha)] at hfind
        rw [List.filter_cons, if_neg (by simpa using ha)]
        exact (ih hndr t).2 s0 hfind

/-- With unique secondary timestamps the pandas left merge coincides with
the specification's one-record-per-primary-row join. -/
theorem merge_left_eq_map_joinRow (P : List FrostRow) (S : List SnowRow)
    (hnd : (S.map SnowRow.ts).Nodup) :
    merge_left P S = P.map (joinRow S) := by
  induction P with
  | nil => rfl
  | cons p P' ih =>
    rw [merge_left, List.flatMap_cons, List.map_cons]
    rw [merge_left] at ih
    rw [ih]
    rcases hfind : S.find? (fun s => s.ts == p.ts) with _ | s0
    · rw [(filter_ts_of_nodup S hnd p.ts).1 hfind]
      rw [joinRow, hfind]
      rfl
    · rw [(filter_ts_of_nodup S hnd p.ts).2 s0 hfind]
      rw [joinRow, hfind]
      rfl

/-- Claim C5 is false on the code as universally stated: a secondary table
with a duplicated timestamp makes the left merge emit one record per
matching pair, so a 1-row primary against a 2-row secondary (both rows at
the same timestamp) produces 2 records, not `len(P) = 1`. -/
theorem claim_C5_counterexample :
    station_merge [⟨0, 1⟩] [⟨0, 5⟩, ⟨0, 7⟩] =
      some [⟨0, 1, some 5⟩, ⟨0, 1, some 7⟩] ∧
    ((station_merge [⟨0, 1⟩] [⟨0, 5⟩, ⟨0, 7⟩]).getD []).length ≠
      ([(⟨0, 1⟩ : FrostRow)] : List FrostRow).length := by
  constructor
  · rfl
  · decide

/-- Claim C5 (amended): when the primary table is nonempty, the secondary
table is nonempty, and the secondary timestamps are unique, the merge
produces exactly `len(P)` records — each primary row yields one record
whose secondary field is populated iff the secondary table holds a row
with exactly its timestamp, with that row's value; unmatched secondary
rows are discarded (every record stems from a primary row).  When the
primary table is empty the station is skipped and no record is produced.
(When the secondary table is empty the code zero-fills instead — claim
C6.) -/
theorem claim_C5_amended_left_join (P : List FrostRow) (S : List SnowRow)
    (hP : P ≠ []) (hS : S ≠ []) (hnd : (S.map SnowRow.ts).Nodup) :
    (station_merge P S = some (P.map (joinRow S)) ∧
     (P.map (joinRow S)).length = P.length ∧
     (∀ p : FrostRow, (joinRow S p).ts = p.ts ∧ (joinRow S p).vals = p.vals) ∧
     (∀ p : FrostRow,
       ((joinRow S p).snow_depth_cm ≠ none ↔ ∃ s ∈ S, s.ts = p.ts)) ∧
     (∀ (p : FrostRow) (v : Int), (joinRow S p).snow_depth_cm = some v →
       ∃ s ∈ S, s.ts = p.ts ∧ s.snow_depth_cm = v)) ∧
    (∀ S' : List SnowRow, station_merge [] S' = none) := by
  refine ⟨⟨?_, List.length_map _ _, ?_, ?_, ?_⟩, fun S' => rfl⟩
  · rw [station_merge, if_neg hP, if_neg hS, merge_left_eq_map_joinRow P S hnd]
  · intro p
    rw [joinRow]
    rcases hfind : S.find? (fun s => s.ts == p.ts) with _ | s0 <;>
      rw [hfind] <;> exact ⟨rfl, rfl⟩
  · intro p
    rw [joinRow]
    rcases hfind : S.find? (fun s => s.ts == p.ts) with _ | s0
    · rw [hfind]
      simp only [ne_eq, not_true_eq_false, false_iff]
      rintro ⟨s, hs, hts⟩
      have := List.find?_eq_none.mp hfind s hs
      simp [hts] at this
    · rw [hfind]
      simp only [ne_eq, reduceCtorEq, not_false_eq_true, true_iff]
      exact ⟨s0, List.mem_of_find?_eq_some hfind,
        by simpa using List.find?_some hfind⟩
  · intro p v hv
    rw [joinRow] at hv
    rcases hfind : S.find? (fun s => s.ts == p.ts) with _ | s0
    · rw [hfind] at hv
      cases hv
    · rw [hfind] at hv
      exact ⟨s0, List.mem_of_find?_eq_some hfind,
        by simpa using List.find?_some hfind, Option.some.inj hv⟩

/-- Concrete instantiation of the amended C5: primary timestamps
`{1, 2, 3}`, secondary `{2, 4}` — three records, only the one at 2
populated, the secondary row at 4 discarded. -/
theorem claim_C5_amended_left_join_witness :
    ([(⟨1, 10⟩ : FrostRow), ⟨2, 20⟩, ⟨3, 30⟩] ≠ []) ∧
    ([(⟨2, 5⟩ : SnowRow), ⟨4, 9⟩] ≠ []) ∧
    (([(⟨2, 5⟩ : SnowRow), ⟨4, 9⟩].map SnowRow.ts).Nodup) ∧
    station_merge [⟨1, 10⟩, ⟨2, 20⟩, ⟨3, 30⟩] [⟨2, 5⟩, ⟨4, 9⟩] =
      some [⟨1, 10, none⟩, ⟨2, 20, some 5⟩, ⟨3, 30, none⟩] := by
  refine ⟨by simp, by simp, by decide, ?_⟩
  have h := (claim_C5_amended_left_join [⟨1, 10⟩, ⟨2, 20⟩, ⟨3, 30⟩]
    [⟨2, 5⟩, ⟨4, 9⟩] (by simp) (by simp) (by decide)).1.1
  rw [h]
  rfl

/-- Claim C6 names a real bug: when the snow source yields no data the
code's own log message says "filling with NaN" (an absent value, which is
also what the spec adopts), but the assignment writes the constant `0.0`
into `snow_depth_cm` — every merged record carries a zero fill, not an
absent value. -/
theorem claim_C6_zero_fill_bug :
    station_merge [⟨0, 1⟩, ⟨1, 2⟩] [] =
      some [⟨0, 1, some 0⟩, ⟨1, 2, some 0⟩] ∧
    ∀ m ∈ (station_merge [(⟨0, 1⟩ : FrostRow), ⟨1, 2⟩] []).getD [],
      m.snow_depth_cm = some 0 := by
  constructor
  · rfl
  · decide

end Snow
